import Mathlib

/-!
Verification development for the image conversion pipeline in
`scripts/convert_images.py` and `python/convert_images_gui.py`.

The Python functions are shallowly embedded as executable Lean definitions:
filesystem effects become explicit state passing over a small file-system
record, exceptions become `Option`/failure flags, and the unbounded
`while left <= right` loop of the binary-search compressor is run on an
explicit iteration budget equal to the size of the initial search interval
(a budget that is provably never exhausted, see the fuel-irrelevance lemma
`btRunAux_fuel_irrel` and the iteration bound proved for claim C10).
-/

set_option autoImplicit false

namespace ConvertImagesModel

/-! ### Atomic save (`atomic_save`, identical in both source files)

The Python protocol is:
1. `img.save(temp_path, **kwargs)` — may raise;
2. open and `verify()` the temp file — failure deletes the temp and returns `False`;
3. if the destination exists, `output_path.unlink()` — may raise;
4. `temp_path.rename(output_path)` — may raise;
on any exception the `except` branch deletes the temp file and returns `False`.

An encoded artifact is abstracted to its byte size plus a flag telling
whether `Image.open(...).verify()` accepts it. -/

/-- An encoded file on disk: its byte size and whether it decodes/verifies. -/
structure EncodedFile where
  size : Nat
  valid : Bool
deriving DecidableEq

/-- The slice of the filesystem `atomic_save` touches: the destination path
and the `.tmp` temporary path next to it. -/
structure FileState where
  dest : Option EncodedFile
  temp : Option EncodedFile
deriving DecidableEq

/-- Failure outcomes of the environment during one `atomic_save` call:
what `img.save` produces on the temp path (`none` = the save raised),
whether `output_path.unlink()` raises, and whether `temp_path.rename` raises. -/
structure SaveEnv where
  saveResult : Option EncodedFile
  unlinkDestFails : Bool
  renameFails : Bool
deriving DecidableEq

/-- `atomic_save` from the source: save to temp, verify, delete a
pre-existing destination, rename temp onto the destination; every
exception path deletes the temp file and returns `false`. -/
def atomic_save (env : SaveEnv) (fs : FileState) : Bool × FileState :=
  match env.saveResult with
  | none =>
      -- `img.save` raised: except-branch cleanup removes the temp file
      (false, { dest := fs.dest, temp := none })
  | some f =>
      if f.valid then
        match fs.dest with
        | some _ =>
            if env.unlinkDestFails then
              -- `output_path.unlink()` raised before touching the destination
              (false, { dest := fs.dest, temp := none })
            else if env.renameFails then
              -- destination already deleted, rename raised
              (false, { dest := none, temp := none })
            else
              (true, { dest := some f, temp := none })
        | none =>
            if env.renameFails then
              (false, { dest := none, temp := none })
            else
              (true, { dest := some f, temp := none })
      else
        -- verification of the temp artifact failed
        (false, { dest := fs.dest, temp := none })

end ConvertImagesModel

namespace ConvertImagesModel

/-! ### Size-bounded compression (`compress_to_target_size`, both source files)

The Python loop is

```
left, right = min_quality, max_quality
while left <= right:
    mid_quality = (left + right) // 2
    try:
        img.save(temp, quality=mid_quality); file_size = stat(temp)
        if file_size <= target_size: best_quality = mid_quality; left = mid_quality + 1
        else: right = mid_quality - 1
    except Exception: right = mid_quality - 1
```

`quality` values are Python ints, so the bounds live in `Int` (note `right`
drops below `min_quality` on the way out) and `//` is floor division, which
for the positive divisor 2 agrees with Lean's Euclidean `/` on `Int`.
The probe encoder is `enc : Int → Option Nat` giving the byte size of the
scratch file, `none` when `img.save` raises.  The loop is executed on an
explicit iteration budget; the budget chosen by `btRun` equals the size of
the initial interval and is provably never exhausted (`btRunAux_fuel_irrel`
shows any budget at least the interval size gives the same result). -/

/-- One bounded run of the binary-search loop.  Returns the final
`best_quality` together with the number of executed iterations. -/
def btRunAux (enc : Int → Option Nat) (target : Nat) :
    Nat → Int → Int → Int → Int × Nat
  | 0, _, _, best => (best, 0)
  | fuel + 1, left, right, best =>
    if left ≤ right then
      let mid := (left + right) / 2
      match enc mid with
      | some sz =>
          if sz ≤ target then
            let r := btRunAux enc target fuel (mid + 1) right mid
            (r.1, r.2 + 1)
          else
            let r := btRunAux enc target fuel left (mid - 1) best
            (r.1, r.2 + 1)
      | none =>
          let r := btRunAux enc target fuel left (mid - 1) best
          (r.1, r.2 + 1)
    else (best, 0)

/-- The binary-search loop of `compress_to_target_size`:
`left, right, best_quality` all start as in the source
(`best_quality = min_quality`). -/
def btRun (enc : Int → Option Nat) (target : Nat) (minq maxq : Int) : Int × Nat :=
  btRunAux enc target (maxq + 1 - minq).toNat minq maxq minq

/-- `compress_to_target_size`, filesystem-free view: after the loop the
source re-encodes at `best_quality` and atomically saves (here: the save
succeeds whenever the encoder does), then returns `(True, best)` exactly
when the final size meets the target, `(False, best)` otherwise. -/
def compress_to_target_size (enc : Int → Option Nat) (target : Nat)
    (minq maxq : Int) : Bool × Int :=
  let best := (btRun enc target minq maxq).1
  if minq ≤ best then
    match enc best with
    | some sz => if sz ≤ target then (true, best) else (false, best)
    | none => (false, best)
  else (false, best)

/-- `compress_to_target_size`, stateful view tracking the destination file:
the probes only touch scratch files; the final step runs `atomic_save` with
the encode at `best_quality` and checks the resulting size on disk. -/
def compress_to_target_size_fs (enc : Int → Option EncodedFile) (target : Nat)
    (minq maxq : Int) (unlinkDestFails renameFails : Bool) (fs : FileState) :
    (Bool × Int) × FileState :=
  let best := (btRun (fun q => (enc q).map EncodedFile.size) target minq maxq).1
  if minq ≤ best then
    let s := atomic_save { saveResult := enc best,
                           unlinkDestFails := unlinkDestFails,
                           renameFails := renameFails } fs
    if s.1 then
      match s.2.dest with
      | some f => if f.size ≤ target then ((true, best), s.2) else ((false, best), s.2)
      | none => ((false, best), s.2)
    else ((false, best), s.2)
  else ((false, best), fs)

/-- The midpoint of a nonempty integer interval stays inside it. -/
theorem mid_in_interval (l r : Int) (h : l ≤ r) :
    l ≤ (l + r) / 2 ∧ (l + r) / 2 ≤ r := by
  have h1 : 2 * ((l + r) / 2) + (l + r) % 2 = l + r := Int.ediv_add_emod (l + r) 2
  have h2 : 0 ≤ (l + r) % 2 := Int.emod_nonneg _ (by decide)
  have h3 : (l + r) % 2 < 2 := Int.emod_lt_of_pos _ (by decide)
  omega

/-- Any iteration budget at least the current interval size yields the same
run: the loop genuinely terminates within `(right + 1 - left).toNat` steps. -/
theorem btRunAux_fuel_irrel (enc : Int → Option Nat) (target : Nat) :
    ∀ f1 : Nat, ∀ f2 : Nat, ∀ l r b : Int,
      (r + 1 - l).toNat ≤ f1 → (r + 1 - l).toNat ≤ f2 →
      btRunAux enc target f1 l r b = btRunAux enc target f2 l r b := by
  intro f1
  induction f1 with
  | zero =>
      intro f2 l r b h1 h2
      have hlr : ¬ l ≤ r := by omega
      cases f2 with
      | zero => rfl
      | succ g => simp [btRunAux, hlr]
  | succ f ih =>
      intro f2 l r b h1 h2
      by_cases hlr : l ≤ r
      · cases f2 with
        | zero => omega
        | succ g =>
            have hm := mid_in_interval l r hlr
            simp only [btRunAux, if_pos hlr]
            cases henc : enc ((l + r) / 2) with
            | some sz =>
                by_cases hsz : sz ≤ target
                · simp only [henc, if_pos hsz]
                  rw [ih g ((l + r) / 2 + 1) r ((l + r) / 2) (by omega) (by omega)]
                · simp only [henc, if_neg hsz]
                  rw [ih g l ((l + r) / 2 - 1) b (by omega) (by omega)]
            | none =>
                simp only [henc]
                rw [ih g l ((l + r) / 2 - 1) b (by omega) (by omega)]
      · cases f2 with
        | zero => simp [btRunAux, hlr]
        | succ g => simp [btRunAux, hlr]

/-- Invariant of the binary-search loop for a total encoder whose byte size
is monotone non-decreasing in quality: the final `best_quality` is either
its initial value or a satisfying quality inside the interval, and it
dominates every satisfying quality of the interval. -/
theorem btRunAux_spec (enc : Int → Nat) (target : Nat)
    (mono : ∀ a b : Int, a ≤ b → enc a ≤ enc b) :
    ∀ fuel : Nat, ∀ l r b : Int, (r + 1 - l).toNat ≤ fuel → b ≤ l →
      ((btRunAux (fun q => some (enc q)) target fuel l r b).1 = b
        ∨ (l ≤ (btRunAux (fun q => some (enc q)) target fuel l r b).1
           ∧ (btRunAux (fun q => some (enc q)) target fuel l r b).1 ≤ r
           ∧ enc ((btRunAux (fun q => some (enc q)) target fuel l r b).1) ≤ target))
      ∧ (∀ q : Int, l ≤ q → q ≤ r → enc q ≤ target →
            q ≤ (btRunAux (fun q => some (enc q)) target fuel l r b).1) := by
  intro fuel
  induction fuel with
  | zero =>
      intro l r b hf _
      exact ⟨Or.inl rfl, fun q hq1 hq2 _ => absurd hf (by omega)⟩
  | succ f ih =>
      intro l r b hf hb
      by_cases hlr : l ≤ r
      · have hm := mid_in_interval l r hlr
        by_cases hsz : enc ((l + r) / 2) ≤ target
        · have hrec := ih ((l + r) / 2 + 1) r ((l + r) / 2) (by omega) (by omega)
          simp only [btRunAux, if_pos hlr, if_pos hsz]
          refine ⟨?_, ?_⟩
          · rcases hrec.1 with h1 | h1
            · exact Or.inr ⟨by omega, by omega, by rw [h1]; exact hsz⟩
            · exact Or.inr ⟨by omega, h1.2.1, h1.2.2⟩
          · intro q hq1 hq2 hqP
            by_cases hqm : (l + r) / 2 + 1 ≤ q
            · exact hrec.2 q hqm hq2 hqP
            · rcases hrec.1 with h1 | h1 <;> omega
        · have hrec := ih l ((l + r) / 2 - 1) b (by omega) hb
          simp only [btRunAux, if_pos hlr, if_neg hsz]
          refine ⟨?_, ?_⟩
          · rcases hrec.1 with h1 | h1
            · exact Or.inl h1
            · exact Or.inr ⟨h1.1, by omega, h1.2.2⟩
          · intro q hq1 hq2 hqP
            by_cases hqm : q ≤ (l + r) / 2 - 1
            · exact hrec.2 q hq1 hqm hqP
            · exact absurd (le_trans (mono ((l + r) / 2) q (by omega)) hqP) hsz
      · exact ⟨Or.inl (by simp [btRunAux, hlr]), fun q hq1 hq2 _ => by omega⟩

/-- Iteration count of the loop: at most `log2 (interval size) + 1`, and
zero on an empty interval. -/
theorem btRunAux_count (enc : Int → Option Nat) (target : Nat) :
    ∀ fuel : Nat, ∀ l r b : Int, (r + 1 - l).toNat ≤ fuel →
      (btRunAux enc target fuel l r b).2 ≤ Nat.log 2 ((r + 1 - l).toNat) + 1
      ∧ ((r + 1 - l).toNat = 0 → (btRunAux enc target fuel l r b).2 = 0) := by
  intro fuel
  induction fuel with
  | zero =>
      intro l r b _
      exact ⟨Nat.zero_le _, fun _ => rfl⟩
  | succ f ih =>
      intro l r b hf
      by_cases hlr : l ≤ r
      · have hm := mid_in_interval l r hlr
        have key : ∀ l2 r2 : Int, (r2 + 1 - l2).toNat ≤ f →
            2 * (r2 + 1 - l2).toNat ≤ (r + 1 - l).toNat →
            (btRunAux enc target f l2 r2 b).2 + 1
              ≤ Nat.log 2 ((r + 1 - l).toNat) + 1
            ∧ ∀ b2 : Int, (btRunAux enc target f l2 r2 b2).2 + 1
              ≤ Nat.log 2 ((r + 1 - l).toNat) + 1 := by
          intro l2 r2 hf2 hhalf
          have hrec := fun b2 => ih l2 r2 b2 hf2
          have hbound : ∀ b2 : Int, (btRunAux enc target f l2 r2 b2).2 + 1
              ≤ Nat.log 2 ((r + 1 - l).toNat) + 1 := by
            intro b2
            by_cases hn : (r + 1 - l).toNat = 1
            · have h0 : (r2 + 1 - l2).toNat = 0 := by omega
              have := (hrec b2).2 h0
              simp [this, hn]
            · have hn2 : 2 ≤ (r + 1 - l).toNat := by omega
              have h1 : (r2 + 1 - l2).toNat ≤ (r + 1 - l).toNat / 2 := by omega
              have h2 : Nat.log 2 ((r2 + 1 - l2).toNat)
                  ≤ Nat.log 2 ((r + 1 - l).toNat / 2) :=
                Nat.log_mono_right h1
              have h3 : Nat.log 2 ((r + 1 - l).toNat / 2)
                  = Nat.log 2 ((r + 1 - l).toNat) - 1 := Nat.log_div_base _ _
              have h4 : 0 < Nat.log 2 ((r + 1 - l).toNat) :=
                Nat.log_pos (by omega) hn2
              have := (hrec b2).1
              omega
          exact ⟨hbound b, hbound⟩
        have hdiv : 2 * ((l + r) / 2) + (l + r) % 2 = l + r := Int.ediv_add_emod (l + r) 2
        have hmod1 : 0 ≤ (l + r) % 2 := Int.emod_nonneg _ (by decide)
        have hmod2 : (l + r) % 2 < 2 := Int.emod_lt_of_pos _ (by decide)
        have hne : (r + 1 - l).toNat ≠ 0 := by omega
        refine ?_
        cases henc : enc ((l + r) / 2) with
        | some sz =>
            by_cases hsz : sz ≤ target
            · have hk := key ((l + r) / 2 + 1) r (by omega) (by omega)
              simp only [btRunAux, if_pos hlr, henc, if_pos hsz]
              exact ⟨hk.2 ((l + r) / 2), fun h => absurd h hne⟩
            · have hk := key l ((l + r) / 2 - 1) (by omega) (by omega)
              simp only [btRunAux, if_pos hlr, henc, if_neg hsz]
              exact ⟨hk.1, fun h => absurd h hne⟩
        | none =>
            have hk := key l ((l + r) / 2 - 1) (by omega) (by omega)
            simp only [btRunAux, if_pos hlr, henc]
            exact ⟨hk.1, fun h => absurd h hne⟩
      · exact ⟨by simp [btRunAux, hlr], by simp [btRunAux, hlr]⟩

/-! ### Resize step of `convert_to_avif` (both source files)

```
short_edge = min(final_width, final_height)
if short_edge > MIN_SHORT_EDGE:
    scale_ratio = TARGET_SHORT_EDGE / short_edge
    new_width = int(final_width * scale_ratio)
    new_height = int(final_height * scale_ratio)
```

Python computes `int(w * (t / s))` in floating point; the embedding uses the
exact value `⌊w * t / s⌋` (`Nat` division), the idealisation of that
truncation. -/

/-- The resolution-compression step: scale both axes by
`targetShortEdge / min w h` (truncating) when the short edge exceeds the
trigger threshold, otherwise leave the dimensions unchanged. -/
def resize_dims (minShortEdge targetShortEdge w h : Nat) : Nat × Nat :=
  if minShortEdge < min w h then
    (w * targetShortEdge / min w h, h * targetShortEdge / min w h)
  else (w, h)

/-! ### Pixel-layout normalisation in `convert_to_avif`
(`scripts/convert_images.py` lines 428-439) -/

/-- The Pillow pixel layouts distinguished by the conversion branch.
`PA` (palette with an alpha band) falls into the source's `else` arm. -/
inductive PixMode
  | RGB
  | RGBA
  | CMYK
  | P
  | L
  | LA
  | PA
deriving DecidableEq

/-- Whether a layout carries an alpha band (`RGBA`, `LA`, `PA`).
A plain `P` image has no alpha band of its own. -/
def mode_has_alpha : PixMode → Bool
  | .RGBA => true
  | .LA => true
  | .PA => true
  | _ => false

/-- The mode-normalisation branch of the CLI `convert_to_avif`
(`scripts/convert_images.py` lines 428-439):
`CMYK → RGB`, `P → RGBA`, `L/LA → RGB`, anything else `→ RGB`,
with `RGB`/`RGBA` passed through untouched. -/
def normalize_mode (m : PixMode) : PixMode :=
  if m = .RGB ∨ m = .RGBA then m
  else if m = .CMYK then .RGB
  else if m = .P then .RGBA
  else if m = .L ∨ m = .LA then .RGB
  else .RGB

/-- The GUI `convert_to_avif` (`python/convert_images_gui.py` lines
270-312) contains no pixel-mode handling at all — no `.mode` check and no
`img.convert(...)` anywhere in the file — so the raster reaches `img.save`
in whatever layout it was decoded in: the identity on modes. -/
def normalize_mode_gui (m : PixMode) : PixMode := m

/-! ### Classification of files in `process_folder`
(`scripts/convert_images.py` lines 898-928) and in the GUI task loop
(`python/convert_images_gui.py` lines 823-856) -/

/-- The raster extensions the scripts convert (`SUPPORTED_FORMATS`). -/
def SUPPORTED_FORMATS : List String :=
  [".jpg", ".jpeg", ".png", ".gif", ".bmp", ".tiff", ".tif", ".webp"]

/-- The canonical output extension. -/
def AVIF_EXT : String := ".avif"

/-- `is_8digit_random`: the stem has the configured length and draws only on
lowercase ASCII letters and digits. -/
def is_8digit_random (name : String) (len : Nat) : Bool :=
  name.length == len
    && name.toList.all (fun c => ("abcdefghijklmnopqrstuvwxyz0123456789".toList).contains c)

/-- `is_hash_name` from the GUI: the stem has the configured length and its
lowercase form draws only on hexadecimal digits. -/
def is_hash_name (name : String) (len : Nat) : Bool :=
  name.length == len
    && name.toList.all (fun c => ("0123456789abcdef".toList).contains c.toLower)

/-- Configuration slice used by the classifier. -/
structure FolderConfig where
  maxFileSize : Nat
  minShortEdge : Nat
  nameLen : Nat

/-- Cheap per-file metadata as seen by the classifier: filename stem,
lowercased extension, byte size, and the dimension probe
(`none` = `Image.open`/`img.size` raised). -/
structure SrcFile where
  stem : String
  ext : String
  size : Nat
  probe : Option (Nat × Nat)
deriving DecidableEq

/-- `needs_resolution_adjustment` from `scripts/convert_images.py`:
short edge strictly above the trigger threshold needs adjustment; a failed
metadata read is treated as needing adjustment (`return True`). -/
def needs_resolution_adjustment (minShortEdge : Nat) (probe : Option (Nat × Nat)) : Bool :=
  match probe with
  | some (w, h) => decide (minShortEdge < min w h)
  | none => true

/-- `needs_resolution_adjustment` from `python/convert_images_gui.py`:
same check, but a failed metadata read returns `False`. -/
def needs_resolution_adjustment_gui (minShortEdge : Nat) (probe : Option (Nat × Nat)) : Bool :=
  match probe with
  | some (w, h) => decide (minShortEdge < min w h)
  | none => false

/-- What `process_folder` does with one scanned file. -/
inductive FolderAction
  | toConvert
  | toRename
  | leave
deriving DecidableEq

/-- The per-file branch of the `process_folder` scan loop
(`scripts/convert_images.py` lines 898-928): fully canonical AVIF files are
skipped; supported rasters are converted; AVIF files over the ceiling or
needing resize are reconverted; remaining AVIF files with non-canonical
stems are renamed. -/
def classify_folder_file (cfg : FolderConfig) (f : SrcFile) : FolderAction :=
  let needsComp : Bool := decide (cfg.maxFileSize < f.size)
  let isRand := is_8digit_random f.stem cfg.nameLen
  let needsRes : Bool :=
    if f.ext == AVIF_EXT && isRand && !needsComp then
      needs_resolution_adjustment cfg.minShortEdge f.probe
    else false
  if f.ext == AVIF_EXT && isRand && !needsComp && !needsRes then .leave
  else if SUPPORTED_FORMATS.contains f.ext then .toConvert
  else if f.ext == AVIF_EXT then
    if needsComp || needsRes then .toConvert
    else if !isRand then .toRename
    else .leave
  else .leave

/-- The `process_folder` scan over a directory listing, producing
(`files_to_convert`, `files_to_rename`). -/
def process_folder_scan (cfg : FolderConfig) : List SrcFile → List SrcFile × List SrcFile
  | [] => ([], [])
  | f :: rest =>
    let r := process_folder_scan cfg rest
    match classify_folder_file cfg f with
    | .toConvert => (f :: r.1, r.2)
    | .toRename => (r.1, f :: r.2)
    | .leave => r

/-- The GUI task loop's per-file decision
(`python/convert_images_gui.py` lines 823-856): `true` when the file is
appended to the work list, `false` when it is skipped. -/
def gui_file_needs_task (cfg : FolderConfig) (f : SrcFile) : Bool :=
  if SUPPORTED_FORMATS.contains f.ext then true
  else if f.ext == AVIF_EXT then
    let needsComp : Bool := decide (cfg.maxFileSize < f.size)
    let needsRes := needs_resolution_adjustment_gui cfg.minShortEdge f.probe
    if is_hash_name f.stem cfg.nameLen then needsComp || needsRes else true
  else false

/-! ### Random-name allocation
(`process_image_file_worker`, `scripts/convert_images.py` lines 593-619, and
the pre-allocation in `process_folder`, lines 971-988) -/

/-- Result of the worker's naming-and-processing loop. -/
inductive WorkerOutcome
  | converted (name : String)
  | renamed (name : String)
  | nameError
deriving DecidableEq

/-- The worker's `for _ in range(max_attempts)` loop: draw a name
(`draws i` is the i-th random draw); when it is absent from both the
used-name registry and the filesystem, rename-only tasks rename and return,
while conversion tasks (`needsConv`) and recompress tasks (`needsRework`)
return only if `convert_to_avif` succeeds and otherwise keep drawing. -/
def worker_name_loop (draws : Nat → String) (used : String → Bool)
    (pathTaken : String → Bool) (convertOk : String → Bool)
    (needsConv : Bool) (needsRework : Bool) : Nat → Nat → WorkerOutcome
  | 0, _ => .nameError
  | n + 1, i =>
    let c := draws i
    if !(used c) && !(pathTaken c) then
      if needsConv then
        if convertOk c then .converted c
        else worker_name_loop draws used pathTaken convertOk needsConv needsRework n (i + 1)
      else
        if needsRework then
          if convertOk c then .converted c
          else worker_name_loop draws used pathTaken convertOk needsConv needsRework n (i + 1)
        else .renamed c
    else worker_name_loop draws used pathTaken convertOk needsConv needsRework n (i + 1)

/-- The worker's handling of a file whose stem is not canonical:
`max_attempts = 1000` draws starting at draw index 0. -/
def process_nonrandom_named (draws : Nat → String) (used : String → Bool)
    (pathTaken : String → Bool) (convertOk : String → Bool)
    (needsConv : Bool) (needsRework : Bool) : WorkerOutcome :=
  worker_name_loop draws used pathTaken convertOk needsConv needsRework 1000 0

/-- The pre-allocation loop of `process_folder` (lines 976-981): draw a
candidate and accept it as soon as it is absent from the used-name
registry — the filesystem is not consulted at this site. -/
def folder_alloc_loop (draws : Nat → String) (used : String → Bool) :
    Nat → Nat → Option String
  | 0, _ => none
  | n + 1, i =>
    let c := draws i
    if used c then folder_alloc_loop draws used n (i + 1) else some c

/-- The pre-allocation with its `max_attempts = 1000` bound. -/
def folder_alloc (draws : Nat → String) (used : String → Bool) : Option String :=
  folder_alloc_loop draws used 1000 0

/-! ### Content-hash naming and dedup in the GUI `process_folder`
(`python/convert_images_gui.py` lines 918-935 and 988-999) -/

/-- `generate_hash_name`: a fixed-length leading slice of the content
digest of the final encoded bytes (`digest` abstracts the md5 hexdigest,
`content` the encoded bytes). -/
def generate_hash_name (digest : Nat → String) (len : Nat) (content : Nat) : String :=
  (digest content).take len

/-- What one completed conversion leaves behind: the directory contents
(identifier to file bytes), the identifier used, and whether the step
errored / removed its temp artifact / removed its source file. -/
structure DedupOutcome where
  dir : String → Option Nat
  name : String
  errored : Bool
  tempRemoved : Bool
  sourceRemoved : Bool

/-- Completion handling for one converted file in the GUI `process_folder`:
hash the converted bytes, and if the destination with that identifier
already exists delete the just-produced temp file, otherwise rename the
temp file onto the destination; in both cases delete the source file and
report success. -/
def finish_convert_task (digest : Nat → String) (len : Nat)
    (dir : String → Option Nat) (outBytes : Nat) : DedupOutcome :=
  let hname := generate_hash_name digest len outBytes
  match dir hname with
  | some _ =>
      { dir := dir, name := hname, errored := false,
        tempRemoved := true, sourceRemoved := true }
  | none =>
      { dir := Function.update dir hname (some outBytes), name := hname,
        errored := false, tempRemoved := true, sourceRemoved := true }

/-- `true` when the destination exists and its size meets the byte ceiling. -/
def destWithin (s : FileState) (t : Nat) : Bool :=
  match s.dest with
  | some f => decide (f.size ≤ t)
  | none => false

/-- `true` when the destination exists and passes decode verification. -/
def destValidFlag (s : FileState) : Bool :=
  match s.dest with
  | some f => f.valid
  | none => false

/-- Outcome of `atomic_save` on either result: a failed call leaves the
destination as the prior file or absent; a successful call installs exactly
the (verified) encoded artifact. -/
theorem atomic_save_full_spec (env : SaveEnv) (fs : FileState) :
    ((atomic_save env fs).1 = false →
       (atomic_save env fs).2.dest = fs.dest ∨ (atomic_save env fs).2.dest = none)
    ∧ ((atomic_save env fs).1 = true →
       (atomic_save env fs).2.dest = env.saveResult
       ∧ destValidFlag (atomic_save env fs).2 = true) := by
  rcases env with ⟨sr, uf, rf⟩
  rcases sr with _ | f
  · exact ⟨fun _ => Or.inl rfl, fun h => by simp [atomic_save] at h⟩
  · rcases fs with ⟨d, t⟩
    rcases d with _ | g <;> by_cases hv : f.valid <;> cases uf <;> cases rf <;>
      simp [atomic_save, destValidFlag, hv]

/-- C1 counterexample input: a valid pre-existing destination file. -/
def c1PriorDest : EncodedFile := { size := 5, valid := true }

/-- C1 counterexample input: a valid freshly encoded artifact. -/
def c1NewArtifact : EncodedFile := { size := 10, valid := true }

/-- C1 (counterexample): when the final rename raises after the
pre-existing destination has been deleted, `atomic_save` returns `False`
but the destination no longer holds the file that was there before the
call — it holds nothing. -/
theorem atomic_save_rename_failure_loses_destination :
    (atomic_save { saveResult := some c1NewArtifact,
                   unlinkDestFails := false, renameFails := true }
       { dest := some c1PriorDest, temp := none }).1 = false
    ∧ (atomic_save { saveResult := some c1NewArtifact,
                     unlinkDestFails := false, renameFails := true }
         { dest := some c1PriorDest, temp := none }).2.dest ≠ some c1PriorDest := by
  decide

/-- C1 (amended): whenever `atomic_save` returns `False`, the temporary
artifact is deleted and the destination either still holds exactly the
prior file, or — only when the failure occurred at the final rename, after
the pre-existing destination had been deleted — holds nothing; it never
holds a partial file. -/
theorem atomic_save_failure_prior_or_absent (env : SaveEnv) (fs : FileState)
    (h : (atomic_save env fs).1 = false) :
    (atomic_save env fs).2.temp = none
    ∧ ((atomic_save env fs).2.dest = fs.dest ∨ (atomic_save env fs).2.dest = none) := by
  unfold atomic_save at h ⊢
  rcases env with ⟨sr, uf, rf⟩
  rcases sr with _ | f
  · exact ⟨rfl, Or.inl rfl⟩
  · rcases fs with ⟨d, t⟩
    rcases d with _ | g <;> by_cases hv : f.valid <;>
      simp only [hv] at h ⊢ <;> cases uf <;> cases rf <;> simp_all

/-- C1 witness: the amended theorem applied at the rename-failure input. -/
theorem atomic_save_failure_prior_or_absent_w :
    (atomic_save { saveResult := some c1NewArtifact,
                   unlinkDestFails := false, renameFails := true }
       { dest := some c1PriorDest, temp := none }).2.temp = none
    ∧ ((atomic_save { saveResult := some c1NewArtifact,
                      unlinkDestFails := false, renameFails := true }
          { dest := some c1PriorDest, temp := none }).2.dest
          = (({ dest := some c1PriorDest, temp := none } : FileState)).dest
       ∨ (atomic_save { saveResult := some c1NewArtifact,
                        unlinkDestFails := false, renameFails := true }
            { dest := some c1PriorDest, temp := none }).2.dest = none) :=
  atomic_save_failure_prior_or_absent _ _ (by decide)

/-- C2 counterexample input: a small valid pre-existing destination file. -/
def c2PriorDest : EncodedFile := { size := 3, valid := true }

/-- C2 counterexample input: the encoder output, larger than the ceiling. -/
def c2BigArtifact : EncodedFile := { size := 10, valid := true }

/-- C2 (counterexample): with quality bounds `[0, 0]`, a byte ceiling of 5
and an encoder always producing 10 bytes, no probed quality satisfies the
ceiling, yet `compress_to_target_size` still re-encodes at
`best_quality = min_quality` and atomically replaces the destination with
the 10-byte over-budget result before returning failure: the prior
in-budget destination file is gone. -/
theorem compress_fs_overwrites_over_budget :
    compress_to_target_size_fs (fun _ => some c2BigArtifact) 5 0 0 false false
        { dest := some c2PriorDest, temp := none }
      = ((false, 0), { dest := some c2BigArtifact, temp := none })
    ∧ ¬ (c2BigArtifact.size ≤ 5)
    ∧ some c2BigArtifact ≠ some c2PriorDest := by decide

/-- C2 (amended): if `compress_to_target_size` reports success the
destination's final size is within the ceiling; in every case the
destination ends up as either the prior file, nothing (rename-step failure
of the final atomic save), or the complete verified encode at the returned
best-effort quality — which on the failure return may exceed the ceiling —
and never a truncated artifact. -/
theorem compress_fs_success_bound_and_dest (enc : Int → Option EncodedFile)
    (target : Nat) (minq maxq : Int) (uf rf : Bool) (fs : FileState) :
    ((compress_to_target_size_fs enc target minq maxq uf rf fs).1.1 = true →
       destWithin (compress_to_target_size_fs enc target minq maxq uf rf fs).2 target = true)
    ∧ ((compress_to_target_size_fs enc target minq maxq uf rf fs).2.dest = fs.dest
       ∨ (compress_to_target_size_fs enc target minq maxq uf rf fs).2.dest = none
       ∨ ((compress_to_target_size_fs enc target minq maxq uf rf fs).2.dest
            = enc ((compress_to_target_size_fs enc target minq maxq uf rf fs).1.2)
          ∧ destValidFlag (compress_to_target_size_fs enc target minq maxq uf rf fs).2
              = true)) := by
  unfold compress_to_target_size_fs
  set b0 := (btRun (fun q => (enc q).map EncodedFile.size) target minq maxq).1 with hb0
  by_cases hb : minq ≤ b0
  · simp only [if_pos hb]
    have hsave := atomic_save_full_spec
      { saveResult := enc b0, unlinkDestFails := uf, renameFails := rf } fs
    by_cases hsv : (atomic_save
        { saveResult := enc b0, unlinkDestFails := uf, renameFails := rf } fs).1 = true
    · have hdest := hsave.2 hsv
      simp only [hsv, if_true]
      cases hd : (atomic_save
          { saveResult := enc b0, unlinkDestFails := uf, renameFails := rf } fs).2.dest with
      | none =>
          simp only [hd]
          exact ⟨fun h => absurd h (by simp), by simp⟩
      | some f =>
          by_cases hfs : f.size ≤ target
          · simp only [hd, if_pos hfs]
            refine ⟨fun _ => ?_, Or.inr (Or.inr ⟨by rw [← hd]; exact hdest.1, hdest.2⟩)⟩
            simp [destWithin, hd, hfs]
          · simp only [hd, if_neg hfs]
            exact ⟨fun h => absurd h (by simp),
              Or.inr (Or.inr ⟨by rw [← hd]; exact hdest.1, hdest.2⟩)⟩
    · have hfalse : (atomic_save
          { saveResult := enc b0, unlinkDestFails := uf, renameFails := rf } fs).1 = false := by
        revert hsv
        cases (atomic_save
          { saveResult := enc b0, unlinkDestFails := uf, renameFails := rf } fs).1 <;> simp
      simp only [hfalse, Bool.false_eq_true, if_false]
      exact ⟨fun h => absurd h (by simp), by
        rcases hsave.1 hfalse with h | h
        · exact Or.inl h
        · exact Or.inr (Or.inl h)⟩
  · simp only [if_neg hb]
    exact ⟨fun h => absurd h (by simp), by simp⟩

/-- C2 witness input: an encoder output already inside the ceiling. -/
def c2SmallArtifact : EncodedFile := { size := 4, valid := true }

/-- C2 witness: the success half applied at a concrete in-budget run. -/
theorem compress_fs_success_bound_and_dest_w :
    destWithin (compress_to_target_size_fs (fun _ => some c2SmallArtifact) 5 0 0 false false
      { dest := none, temp := none }).2 5 = true :=
  (compress_fs_success_bound_and_dest (fun _ => some c2SmallArtifact) 5 0 0 false false
    { dest := none, temp := none }).1 (by decide)

/-- C3 counterexample encoder: byte size non-increasing in quality
(10 bytes below quality 2, then 2 bytes). -/
def encSize3 (q : Int) : Nat := if q < 2 then 10 else 2

/-- C3 (counterexample): for this encoder — non-increasing in quality, as
the claim states — quality 2 is inside `[0, 2]` and satisfies the 5-byte
ceiling, so the claim demands success with the maximal satisfying quality
2; the binary search instead discards the upper half after the failing
midpoint probe and returns failure at quality 0. -/
theorem compress_antitone_encoder_ce :
    (∀ a b : Int, a ≤ b → encSize3 b ≤ encSize3 a)
    ∧ encSize3 2 ≤ 5
    ∧ compress_to_target_size (fun q => some (encSize3 q)) 5 0 2 = (false, 0) := by
  refine ⟨?_, by decide, by decide⟩
  intro a b h
  unfold encSize3
  split_ifs <;> omega

/-- C3 (amended): for every total encoder whose byte size is monotone
non-decreasing in quality and bounds `min_quality ≤ max_quality`,
`compress_to_target_size` returns `(True, q)` with `q` the maximal quality
in the interval whose encoded size meets the ceiling whenever encoding at
`min_quality` meets the ceiling, and returns `(False, min_quality)` exactly
when even `min_quality` exceeds it. -/
theorem compress_monotone_correct (enc : Int → Nat) (target : Nat)
    (minq maxq : Int) (mono : ∀ a b : Int, a ≤ b → enc a ≤ enc b)
    (hq : minq ≤ maxq) :
    (enc minq ≤ target →
       compress_to_target_size (fun q => some (enc q)) target minq maxq
         = (true, (btRun (fun q => some (enc q)) target minq maxq).1)
       ∧ minq ≤ (btRun (fun q => some (enc q)) target minq maxq).1
       ∧ (btRun (fun q => some (enc q)) target minq maxq).1 ≤ maxq
       ∧ enc ((btRun (fun q => some (enc q)) target minq maxq).1) ≤ target
       ∧ (∀ q : Int, minq ≤ q → q ≤ maxq → enc q ≤ target →
            q ≤ (btRun (fun q => some (enc q)) target minq maxq).1))
    ∧ (target < enc minq →
       compress_to_target_size (fun q => some (enc q)) target minq maxq
         = (false, minq)) := by
  have hspec := btRunAux_spec enc target mono (maxq + 1 - minq).toNat minq maxq minq
    le_rfl le_rfl
  set b0 := (btRunAux (fun q => some (enc q)) target (maxq + 1 - minq).toNat
    minq maxq minq).1 with hb0
  have hbtr : (btRun (fun q => some (enc q)) target minq maxq).1 = b0 := rfl
  have hminb : minq ≤ b0 := by
    rcases hspec.1 with h | h
    · omega
    · exact h.1
  have hcomp : compress_to_target_size (fun q => some (enc q)) target minq maxq
      = if enc b0 ≤ target then (true, b0) else (false, b0) := by
    unfold compress_to_target_size
    rw [hbtr, if_pos hminb]
  constructor
  · intro h1
    have hPb : enc b0 ≤ target := by
      rcases hspec.1 with h | h
      · rw [h]; exact h1
      · exact h.2.2
    rw [hbtr]
    refine ⟨by rw [hcomp, if_pos hPb], hminb, ?_, hPb, fun q hq1 hq2 hq3 => hspec.2 q hq1 hq2 hq3⟩
    rcases hspec.1 with h | h
    · omega
    · exact h.2.1
  · intro h2
    have hb0min : b0 = minq := by
      rcases hspec.1 with h | h
      · exact h
      · exact absurd (le_trans (mono minq b0 h.1) h.2.2) (by omega)
    rw [hcomp, hb0min, if_neg (by omega)]

/-- C3 witness: the amended theorem applied to the identity-size encoder
on `[0, 85]` with ceiling 10: the compressor succeeds and returns the
maximal satisfying quality found by the search. -/
theorem compress_monotone_correct_w :
    compress_to_target_size (fun q => some q.toNat) 10 0 85
      = (true, (btRun (fun q => some q.toNat) 10 0 85).1) :=
  ((compress_monotone_correct (fun q => q.toNat) 10 0 85
    (fun a b h => by dsimp only; omega) (by decide)).1 (by decide)).1

/-- C10: for every quality bounds `min_quality ≤ max_quality`, the
binary-search loop of `compress_to_target_size` terminates: it runs at most
`log2 (max_quality - min_quality + 1) + 1` iterations, and enlarging the
iteration budget beyond the initial interval size never changes the run. -/
theorem compress_loop_iteration_bound (enc : Int → Option Nat) (target : Nat)
    (minq maxq : Int) (_h : minq ≤ maxq) :
    (btRun enc target minq maxq).2 ≤ Nat.log2 ((maxq + 1 - minq).toNat) + 1
    ∧ ∀ fuel : Nat, (maxq + 1 - minq).toNat ≤ fuel →
        btRunAux enc target fuel minq maxq minq = btRun enc target minq maxq := by
  constructor
  · rw [Nat.log2_eq_log_two]
    exact (btRunAux_count enc target (maxq + 1 - minq).toNat minq maxq minq le_rfl).1
  · intro fuel hf
    exact btRunAux_fuel_irrel enc target fuel (maxq + 1 - minq).toNat minq maxq minq hf le_rfl

/-- C10 witness: the bound applied to a concrete run on `[0, 85]`. -/
theorem compress_loop_iteration_bound_w :
    (btRun (fun _ => some 1) 0 0 85).2 ≤ Nat.log2 (((85 : Int) + 1 - 0).toNat) + 1 :=
  (compress_loop_iteration_bound (fun _ => some 1) 0 0 85 (by decide)).1

/-- C5: when the short edge `min w h` exceeds the trigger threshold, both
dimensions are scaled by the ratio `targetShortEdge / min w h` with the
same truncating rounding on both axes, the output short edge equals the
target exactly, and the aspect ratio is preserved up to that rounding
(cross products differ by less than one denominator step); when the short
edge is within the threshold the dimensions are unchanged. -/
theorem resize_dims_spec (mse tse w h : Nat) :
    (mse < min w h →
       resize_dims mse tse w h = (w * tse / min w h, h * tse / min w h)
       ∧ min (resize_dims mse tse w h).1 (resize_dims mse tse w h).2 = tse
       ∧ w * (resize_dims mse tse w h).2 < h * ((resize_dims mse tse w h).1 + 1)
       ∧ h * (resize_dims mse tse w h).1 < w * ((resize_dims mse tse w h).2 + 1))
    ∧ (min w h ≤ mse → resize_dims mse tse w h = (w, h)) := by
  constructor
  · intro h1
    have heq : resize_dims mse tse w h = (w * tse / min w h, h * tse / min w h) := by
      unfold resize_dims
      rw [if_pos h1]
    have hs : 0 < min w h := by omega
    have hda := Nat.div_add_mod (w * tse) (min w h)
    have hdb := Nat.div_add_mod (h * tse) (min w h)
    have hma := Nat.mod_lt (w * tse) hs
    have hmb := Nat.mod_lt (h * tse) hs
    have hsw : min w h ≤ w := Nat.min_le_left w h
    have hsh : min w h ≤ h := Nat.min_le_right w h
    have haspect1 : w * (h * tse / min w h) < h * (w * tse / min w h + 1) := by
      have main : min w h * (w * (h * tse / min w h))
          < min w h * (h * (w * tse / min w h + 1)) := by
        calc min w h * (w * (h * tse / min w h))
            = w * (min w h * (h * tse / min w h)) := by ring
          _ ≤ w * (h * tse) := mul_le_mul_left' (by omega) w
          _ = h * (w * tse) := by ring
          _ < h * (min w h * (w * tse / min w h + 1)) := by
              have hlt : w * tse < min w h * (w * tse / min w h + 1) := by
                have : min w h * (w * tse / min w h + 1)
                    = min w h * (w * tse / min w h) + min w h := by ring
                omega
              exact mul_lt_mul_of_pos_left hlt (by omega)
          _ = min w h * (h * (w * tse / min w h + 1)) := by ring
      exact Nat.lt_of_mul_lt_mul_left main
    have haspect2 : h * (w * tse / min w h) < w * (h * tse / min w h + 1) := by
      have main : min w h * (h * (w * tse / min w h))
          < min w h * (w * (h * tse / min w h + 1)) := by
        calc min w h * (h * (w * tse / min w h))
            = h * (min w h * (w * tse / min w h)) := by ring
          _ ≤ h * (w * tse) := mul_le_mul_left' (by omega) h
          _ = w * (h * tse) := by ring
          _ < w * (min w h * (h * tse / min w h + 1)) := by
              have hlt : h * tse < min w h * (h * tse / min w h + 1) := by
                have : min w h * (h * tse / min w h + 1)
                    = min w h * (h * tse / min w h) + min w h := by ring
                omega
              exact mul_lt_mul_of_pos_left hlt (by omega)
          _ = min w h * (w * (h * tse / min w h + 1)) := by ring
      exact Nat.lt_of_mul_lt_mul_left main
    have hshort : min (w * tse / min w h) (h * tse / min w h) = tse := by
      rcases le_total w h with hwh | hwh
      · have hmin : min w h = w := Nat.min_eq_left hwh
        have hw0 : 0 < w := by omega
        have h1a : w * tse / min w h = tse := by
          rw [hmin, Nat.mul_div_cancel_left tse hw0]
        have h1b : tse ≤ h * tse / min w h := by
          rw [hmin]
          exact (Nat.le_div_iff_mul_le hw0).mpr (by nlinarith)
        rw [h1a]
        exact Nat.min_eq_left h1b
      · have hmin : min w h = h := Nat.min_eq_right hwh
        have hh0 : 0 < h := by omega
        have h1a : h * tse / min w h = tse := by
          rw [hmin, Nat.mul_div_cancel_left tse hh0]
        have h1b : tse ≤ w * tse / min w h := by
          rw [hmin]
          exact (Nat.le_div_iff_mul_le hh0).mpr (by nlinarith)
        rw [h1a]
        exact Nat.min_eq_right h1b
    rw [heq]
    exact ⟨rfl, hshort, haspect1, haspect2⟩
  · intro h2
    unfold resize_dims
    rw [if_neg (by omega)]

/-- C5 witness: the spec's test vector 6000×4000 with trigger 3000 and
target 2000 resizes to 3000×2000 (short edge exactly 2000, ratio 1/2 on
both axes). -/
theorem resize_dims_spec_w : resize_dims 3000 2000 6000 4000 = (3000, 2000) :=
  ((resize_dims_spec 3000 2000 6000 4000).1 (by decide)).1

/-- C6 (counterexample): a grayscale-with-alpha (`LA`) source is normalised
to `RGB`, losing its alpha band, and a plain palette (`P`) source without
an alpha band is normalised to `RGBA`, gaining one — so the normalised
raster does not have an alpha channel exactly when the source had one. -/
theorem normalize_mode_alpha_ce :
    normalize_mode .LA = .RGB
    ∧ mode_has_alpha .LA = true
    ∧ mode_has_alpha (normalize_mode .LA) = false
    ∧ normalize_mode .P = .RGBA
    ∧ mode_has_alpha .P = false
    ∧ mode_has_alpha (normalize_mode .P) = true := by decide

/-- C6 (amended): in the CLI script every layout is normalised to `RGB` or
`RGBA` before encoding, but the result is `RGBA` exactly for `RGBA` and
palette (`P`) sources — alpha is preserved only when the source is already
`RGBA`, palette sources always gain an alpha channel, and all other
alpha-bearing layouts (`LA`, `PA`) lose theirs; the GUI's `convert_to_avif`
performs no pixel-mode normalisation at all, passing every layout through
unchanged. -/
theorem normalize_mode_spec :
    ∀ m : PixMode,
      (normalize_mode m = .RGB ∨ normalize_mode m = .RGBA)
      ∧ (normalize_mode m = .RGBA ↔ (m = .RGBA ∨ m = .P))
      ∧ normalize_mode_gui m = m := by
  intro m
  cases m <;> decide

/-- A fully canonical file (AVIF extension, canonical random stem, size
within the ceiling, readable dimensions with short edge within the trigger
threshold) is classified as untouched by the `process_folder` scan. -/
theorem classify_canonical_leave (cfg : FolderConfig) (f : SrcFile)
    (he : f.ext = AVIF_EXT) (hr : is_8digit_random f.stem cfg.nameLen = true)
    (hsz : f.size ≤ cfg.maxFileSize) (w h2 : Nat) (hp : f.probe = some (w, h2))
    (hmin : min w h2 ≤ cfg.minShortEdge) :
    classify_folder_file cfg f = .leave := by
  have hc : decide (cfg.maxFileSize < f.size) = false := by
    simp only [decide_eq_false_iff_not]
    omega
  have hres : needs_resolution_adjustment cfg.minShortEdge f.probe = false := by
    simp only [needs_resolution_adjustment, hp, decide_eq_false_iff_not]
    omega
  simp [classify_folder_file, he, hr, hc, hres]

/-- C7: over a directory in which every image file already has the AVIF
extension, a canonical random stem, byte size within the ceiling and short
edge within the trigger threshold, the `process_folder` scan schedules zero
conversions and zero renames: every file is skipped. -/
theorem canonical_folder_zero_work (cfg : FolderConfig) (files : List SrcFile)
    (h : ∀ f ∈ files, f.ext = AVIF_EXT ∧ is_8digit_random f.stem cfg.nameLen = true
        ∧ f.size ≤ cfg.maxFileSize
        ∧ ∃ w h2 : Nat, f.probe = some (w, h2) ∧ min w h2 ≤ cfg.minShortEdge) :
    process_folder_scan cfg files = ([], []) := by
  induction files with
  | nil => rfl
  | cons f rest ih =>
      obtain ⟨he, hr, hsz, w, h2, hp, hmin⟩ := h f (List.mem_cons_self f rest)
      have hrest := ih (fun g hg => h g (List.mem_cons_of_mem f hg))
      simp only [process_folder_scan,
        classify_canonical_leave cfg f he hr hsz w h2 hp hmin, hrest]

/-- C7 witness inputs: a canonical directory of one file. -/
def c7Cfg : FolderConfig := { maxFileSize := 4194304, minShortEdge := 3500, nameLen := 8 }

/-- C7 witness stem: eight lowercase alphanumeric characters. -/
def c7Stem : String := "a1b2c3d4"

/-- C7 witness file: canonical in every respect. -/
def c7SrcFile : SrcFile :=
  { stem := c7Stem, ext := AVIF_EXT, size := 2048, probe := some (1200, 800) }

/-- C7 witness: the scan of the canonical singleton directory is empty. -/
theorem canonical_folder_zero_work_w :
    process_folder_scan c7Cfg [c7SrcFile] = ([], []) :=
  canonical_folder_zero_work c7Cfg [c7SrcFile] (by
    intro f hf
    simp only [List.mem_singleton] at hf
    subst hf
    exact ⟨rfl, by decide, by decide, 1200, 800, rfl, by decide⟩)

/-- C8 counterexample inputs: a canonical-stem AVIF file whose dimension
probe raises. -/
def c8Cfg : FolderConfig := { maxFileSize := 1048576, minShortEdge := 3000, nameLen := 8 }

/-- C8 counterexample stem: eight lowercase hex characters. -/
def c8HexStem : String := "0a1b2c3d"

/-- C8 counterexample file: metadata probe fails (`probe = none`). -/
def c8SrcFile : SrcFile :=
  { stem := c8HexStem, ext := AVIF_EXT, size := 1000, probe := none }

/-- C8 (counterexample): in the GUI implementation the resolution check
returns `False` on a metadata read failure, so a canonical-codec file whose
dimensions cannot be read is skipped rather than routed to
CONVERT/RECOMPRESS. -/
theorem gui_probe_failure_skipped_ce :
    needs_resolution_adjustment_gui 3000 none = false
    ∧ gui_file_needs_task c8Cfg c8SrcFile = false := by decide

/-- C8 (amended): the CLI script's resolution check reports "needs
adjustment" on a metadata read failure, so there such a file is routed to
reconversion; the GUI's check reports "no adjustment needed" on the same
failure, so there the file is skipped. -/
theorem probe_failure_routing :
    (∀ mse : Nat, needs_resolution_adjustment mse none = true)
    ∧ (∀ mse : Nat, needs_resolution_adjustment_gui mse none = false)
    ∧ (∀ (cfg : FolderConfig) (f : SrcFile), f.ext = AVIF_EXT →
         is_8digit_random f.stem cfg.nameLen = true → f.size ≤ cfg.maxFileSize →
         f.probe = none → classify_folder_file cfg f = .toConvert)
    ∧ (∀ (cfg : FolderConfig) (f : SrcFile), f.ext = AVIF_EXT →
         is_hash_name f.stem cfg.nameLen = true → f.size ≤ cfg.maxFileSize →
         f.probe = none → gui_file_needs_task cfg f = false) := by
  have havif : SUPPORTED_FORMATS.contains AVIF_EXT = false := by decide
  have havifm : AVIF_EXT ∉ SUPPORTED_FORMATS := by decide
  refine ⟨fun _ => rfl, fun _ => rfl, ?_, ?_⟩
  · intro cfg f he hr hsz hp
    have hc : decide (cfg.maxFileSize < f.size) = false := by
      simp only [decide_eq_false_iff_not]
      omega
    simp [classify_folder_file, he, hr, hc, hp, needs_resolution_adjustment, havif, havifm]
  · intro cfg f he hr hsz hp
    have hc : decide (cfg.maxFileSize < f.size) = false := by
      simp only [decide_eq_false_iff_not]
      omega
    simp [gui_file_needs_task, he, hr, hc, hp, needs_resolution_adjustment_gui, havif, havifm]

/-- C8 witness stem: a canonical random stem for the CLI side. -/
def c8RandStem : String := "e5f6a7b8"

/-- C8 witness: the CLI classifier routes the unreadable canonical file to
conversion. -/
theorem probe_failure_routing_w :
    classify_folder_file c8Cfg
        { stem := c8RandStem, ext := AVIF_EXT, size := 1000, probe := none }
      = .toConvert :=
  probe_failure_routing.2.2.1 c8Cfg
    { stem := c8RandStem, ext := AVIF_EXT, size := 1000, probe := none }
    rfl (by decide) (by decide) rfl

/-- Rename-only tasks: the worker loop errors out exactly when every drawn
name collides with the registry or the filesystem. -/
theorem worker_rename_error_iff (draws : Nat → String)
    (used pathTaken convertOk : String → Bool) :
    ∀ n i : Nat,
      (worker_name_loop draws used pathTaken convertOk false false n i = .nameError
       ↔ ∀ j : Nat, j < n → (used (draws (i + j)) || pathTaken (draws (i + j))) = true) := by
  intro n
  induction n with
  | zero => intro i; simp [worker_name_loop]
  | succ m ih =>
      intro i
      by_cases hc : (!(used (draws i)) && !(pathTaken (draws i))) = true
      · have hfree : (used (draws i) || pathTaken (draws i)) = false := by
          revert hc
          cases used (draws i) <;> cases pathTaken (draws i) <;> simp
        simp only [worker_name_loop, hc, if_true]
        constructor
        · intro hcontra
          exact absurd hcontra (by simp)
        · intro hall
          have h0 := hall 0 (Nat.succ_pos m)
          rw [Nat.add_zero] at h0
          rw [hfree] at h0
          exact absurd h0 (by simp)
      · have hcol : (used (draws i) || pathTaken (draws i)) = true := by
          revert hc
          cases used (draws i) <;> cases pathTaken (draws i) <;> simp
        have hcf : (!(used (draws i)) && !(pathTaken (draws i))) = false := by
          revert hc
          cases used (draws i) <;> cases pathTaken (draws i) <;> simp
        simp only [worker_name_loop, hcf, Bool.false_eq_true, if_false]
        rw [ih (i + 1)]
        constructor
        · intro hall j hj
          cases j with
          | zero => rw [Nat.add_zero]; exact hcol
          | succ k =>
              have := hall k (by omega)
              rw [show i + (k + 1) = i + 1 + k from by omega]
              exact this
        · intro hall j hj
          have := hall (j + 1) (by omega)
          rw [show i + 1 + j = i + (j + 1) from by omega]
          exact this

/-- Conversion tasks: the worker loop errors out exactly when every
iteration fails — the drawn name collides, or the conversion at a fresh
name fails. -/
theorem worker_convert_error_iff (draws : Nat → String)
    (used pathTaken convertOk : String → Bool) :
    ∀ n i : Nat,
      (worker_name_loop draws used pathTaken convertOk true false n i = .nameError
       ↔ ∀ j : Nat, j < n →
           (used (draws (i + j)) || pathTaken (draws (i + j))
             || !(convertOk (draws (i + j)))) = true) := by
  intro n
  induction n with
  | zero => intro i; simp [worker_name_loop]
  | succ m ih =>
      intro i
      by_cases hc : (!(used (draws i)) && !(pathTaken (draws i))) = true
      · have hfree : (used (draws i) || pathTaken (draws i)) = false := by
          revert hc
          cases used (draws i) <;> cases pathTaken (draws i) <;> simp
        by_cases hok : convertOk (draws i) = true
        · simp only [worker_name_loop, hc, if_true, hok]
          constructor
          · intro hcontra
            exact absurd hcontra (by simp)
          · intro hall
            have h0 := hall 0 (Nat.succ_pos m)
            rw [Nat.add_zero] at h0
            rw [hok] at h0
            revert h0 hfree
            cases used (draws i) <;> cases pathTaken (draws i) <;> simp
        · have hokf : convertOk (draws i) = false := by
            revert hok
            cases convertOk (draws i) <;> simp
          simp only [worker_name_loop, hc, if_true, hokf, Bool.false_eq_true, if_false]
          rw [ih (i + 1)]
          constructor
          · intro hall j hj
            cases j with
            | zero =>
                rw [Nat.add_zero, hokf]
                revert hfree
                cases used (draws i) <;> cases pathTaken (draws i) <;> simp
            | succ k =>
                have := hall k (by omega)
                rw [show i + (k + 1) = i + 1 + k from by omega]
                exact this
          · intro hall j hj
            have := hall (j + 1) (by omega)
            rw [show i + 1 + j = i + (j + 1) from by omega]
            exact this
      · have hcol : (used (draws i) || pathTaken (draws i)) = true := by
          revert hc
          cases used (draws i) <;> cases pathTaken (draws i) <;> simp
        have hcf : (!(used (draws i)) && !(pathTaken (draws i))) = false := by
          revert hc
          cases used (draws i) <;> cases pathTaken (draws i) <;> simp
        simp only [worker_name_loop, hcf, Bool.false_eq_true, if_false]
        rw [ih (i + 1)]
        constructor
        · intro hall j hj
          cases j with
          | zero =>
              rw [Nat.add_zero]
              revert hcol
              cases used (draws i) <;> cases pathTaken (draws i) <;> simp
          | succ k =>
              have := hall k (by omega)
              rw [show i + (k + 1) = i + 1 + k from by omega]
              exact this
        · intro hall j hj
          have := hall (j + 1) (by omega)
          rw [show i + 1 + j = i + (j + 1) from by omega]
          exact this

/-- Rename-only tasks succeed at the first draw that is absent from both
the registry and the filesystem, renaming to exactly that name. -/
theorem worker_rename_first_fresh (draws : Nat → String)
    (used pathTaken convertOk : String → Bool) :
    ∀ j n i : Nat, j < n →
      (∀ k : Nat, k < j → (used (draws (i + k)) || pathTaken (draws (i + k))) = true) →
      (used (draws (i + j)) || pathTaken (draws (i + j))) = false →
      worker_name_loop draws used pathTaken convertOk false false n i
        = .renamed (draws (i + j)) := by
  intro j
  induction j with
  | zero =>
      intro n i hn _ hfresh
      cases n with
      | zero => omega
      | succ m =>
          rw [Nat.add_zero] at hfresh
          have hc : (!(used (draws i)) && !(pathTaken (draws i))) = true := by
            revert hfresh
            cases used (draws i) <;> cases pathTaken (draws i) <;> simp
          simp [worker_name_loop, hc]
  | succ k ih =>
      intro n i hn hcoll hfresh
      cases n with
      | zero => omega
      | succ m =>
          have h0 := hcoll 0 (Nat.succ_pos k)
          rw [Nat.add_zero] at h0
          have hcf : (!(used (draws i)) && !(pathTaken (draws i))) = false := by
            revert h0
            cases used (draws i) <;> cases pathTaken (draws i) <;> simp
          simp only [worker_name_loop, hcf, Bool.false_eq_true, if_false]
          have hrec := ih m (i + 1) (by omega)
            (fun k2 hk2 => by
              have := hcoll (k2 + 1) (by omega)
              rw [show i + (k2 + 1) = i + 1 + k2 from by omega] at this
              exact this)
            (by
              rw [show i + 1 + k = i + (k + 1) from by omega]
              exact hfresh)
          rw [show i + 1 + k = i + (k + 1) from by omega] at hrec
          exact hrec

/-- The `process_folder` pre-allocation consults only the registry: it
errors out exactly when every draw is in the registry, and any returned
name is merely registry-fresh (no filesystem condition). -/
theorem folder_alloc_registry_only (draws : Nat → String) (used : String → Bool) :
    ∀ n i : Nat,
      (folder_alloc_loop draws used n i = none
       ↔ ∀ j : Nat, j < n → used (draws (i + j)) = true)
      ∧ (∀ name : String, folder_alloc_loop draws used n i = some name →
           used name = false) := by
  intro n
  induction n with
  | zero => intro i; simp [folder_alloc_loop]
  | succ m ih =>
      intro i
      by_cases hc : used (draws i) = true
      · simp only [folder_alloc_loop, hc, if_true]
        constructor
        · rw [(ih (i + 1)).1]
          constructor
          · intro hall j hj
            cases j with
            | zero => rw [Nat.add_zero]; exact hc
            | succ k =>
                have := hall k (by omega)
                rw [show i + (k + 1) = i + 1 + k from by omega]
                exact this
          · intro hall j hj
            have := hall (j + 1) (by omega)
            rw [show i + 1 + j = i + (j + 1) from by omega]
            exact this
        · exact (ih (i + 1)).2
      · have hcf : used (draws i) = false := by
          revert hc
          cases used (draws i) <;> simp
        simp only [folder_alloc_loop, hcf, Bool.false_eq_true, if_false]
        constructor
        · constructor
          · intro hcontra
            exact absurd hcontra (by simp)
          · intro hall
            have h0 := hall 0 (Nat.succ_pos m)
            rw [Nat.add_zero] at h0
            rw [hcf] at h0
            exact absurd h0 (by simp)
        · intro name hname
          have hdn : draws i = name := by
            revert hname
            simp
          rw [← hdn]
          exact hcf

/-- C4 (amended): in the worker, a rename-only task errors out exactly when
all 1000 drawn names collide with the registry or the filesystem and
otherwise renames to the first fresh draw; a conversion task keeps drawing
also when the conversion at a fresh name fails, so it errors out exactly
when every iteration collided or failed to convert (no rename happens on
that path even though conversions were attempted); and the pre-allocation
in `process_folder` checks the drawn name against the in-run registry only,
never against the filesystem. -/
theorem worker_name_allocation_spec :
    (∀ (draws : Nat → String) (used pathTaken convertOk : String → Bool) (n i : Nat),
       worker_name_loop draws used pathTaken convertOk false false n i = .nameError
       ↔ ∀ j : Nat, j < n → (used (draws (i + j)) || pathTaken (draws (i + j))) = true)
    ∧ (∀ (draws : Nat → String) (used pathTaken convertOk : String → Bool) (n i : Nat),
       worker_name_loop draws used pathTaken convertOk true false n i = .nameError
       ↔ ∀ j : Nat, j < n →
           (used (draws (i + j)) || pathTaken (draws (i + j))
             || !(convertOk (draws (i + j)))) = true)
    ∧ (∀ (draws : Nat → String) (used pathTaken convertOk : String → Bool) (j n i : Nat),
       j < n →
       (∀ k : Nat, k < j → (used (draws (i + k)) || pathTaken (draws (i + k))) = true) →
       (used (draws (i + j)) || pathTaken (draws (i + j))) = false →
       worker_name_loop draws used pathTaken convertOk false false n i
         = .renamed (draws (i + j)))
    ∧ (∀ (draws : Nat → String) (used : String → Bool) (n i : Nat),
       (folder_alloc_loop draws used n i = none
        ↔ ∀ j : Nat, j < n → used (draws (i + j)) = true)
       ∧ (∀ name : String, folder_alloc_loop draws used n i = some name →
            used name = false)) :=
  ⟨fun draws used pathTaken convertOk n i =>
      worker_rename_error_iff draws used pathTaken convertOk n i,
   fun draws used pathTaken convertOk n i =>
      worker_convert_error_iff draws used pathTaken convertOk n i,
   fun draws used pathTaken convertOk j n i =>
      worker_rename_first_fresh draws used pathTaken convertOk j n i,
   fun draws used n i => folder_alloc_registry_only draws used n i⟩

/-- C4 counterexample name: a fresh eight-character draw. -/
def c4FreshName : String := "q7r8s9t0"

set_option maxRecDepth 40000 in
/-- C4 (counterexample): with an empty registry, an empty directory and a
conversion that always fails, the worker exhausts its 1000 attempts and
reports the cannot-generate-unique-name error even though the very first
draw was absent from both the registry and the filesystem (the identical
rename-only run succeeds immediately on that draw) — so the error is not
reported "exactly when all 1000 attempts to find a fresh name are
exhausted". -/
theorem worker_error_despite_fresh_name_ce :
    process_nonrandom_named (fun _ => c4FreshName) (fun _ => false) (fun _ => false)
        (fun _ => false) true false = .nameError
    ∧ process_nonrandom_named (fun _ => c4FreshName) (fun _ => false) (fun _ => false)
        (fun _ => false) false false = .renamed c4FreshName := by decide

/-- C4 witness name: a draw that is already registered. -/
def c4UsedName : String := "u1v2w3x4"

/-- C4 witness: the rename-only error characterisation applied to a run
whose every draw collides with the registry. -/
theorem worker_name_allocation_spec_w :
    worker_name_loop (fun _ => c4UsedName) (fun _ => true) (fun _ => false)
      (fun _ => true) false false 5 0 = .nameError :=
  (worker_name_allocation_spec.1 (fun _ => c4UsedName) (fun _ => true) (fun _ => false)
    (fun _ => true) 5 0).mpr (fun j _ => by simp)

/-- C9: under the content-hash naming policy, two completed conversions
with byte-identical output map to the same fixed-length digest-slice
identifier; the first installs the destination file, and the second detects
the existing destination, deletes its own temp artifact and its source
file, and reports no error — the directory ends with exactly that one
destination entry and the second completion changes nothing. -/
theorem content_hash_dedup (digest : Nat → String) (len : Nat)
    (dir : String → Option Nat) (c : Nat)
    (hfresh : dir (generate_hash_name digest len c) = none) :
    (finish_convert_task digest len dir c).name = generate_hash_name digest len c
    ∧ (finish_convert_task digest len (finish_convert_task digest len dir c).dir c).name
        = (finish_convert_task digest len dir c).name
    ∧ (finish_convert_task digest len dir c).errored = false
    ∧ (finish_convert_task digest len (finish_convert_task digest len dir c).dir c).errored
        = false
    ∧ (finish_convert_task digest len
        (finish_convert_task digest len dir c).dir c).tempRemoved = true
    ∧ (finish_convert_task digest len
        (finish_convert_task digest len dir c).dir c).sourceRemoved = true
    ∧ (finish_convert_task digest len dir c).dir (generate_hash_name digest len c) = some c
    ∧ (finish_convert_task digest len (finish_convert_task digest len dir c).dir c).dir
        = (finish_convert_task digest len dir c).dir := by
  have hr1 : finish_convert_task digest len dir c
      = { dir := Function.update dir (generate_hash_name digest len c) (some c),
          name := generate_hash_name digest len c, errored := false,
          tempRemoved := true, sourceRemoved := true } := by
    simp [finish_convert_task, hfresh]
  have hat : Function.update dir (generate_hash_name digest len c) (some c)
      (generate_hash_name digest len c) = some c := Function.update_same _ _ _
  have hr2 : finish_convert_task digest len
      (Function.update dir (generate_hash_name digest len c) (some c)) c
      = { dir := Function.update dir (generate_hash_name digest len c) (some c),
          name := generate_hash_name digest len c, errored := false,
          tempRemoved := true, sourceRemoved := true } := by
    simp [finish_convert_task, hat]
  rw [hr1, hr2]
  exact ⟨rfl, rfl, rfl, rfl, rfl, rfl, hat, rfl⟩

/-- C9 witness digest: a constant hexdigest. -/
def c9Digest : Nat → String := fun _ => "0123abcd4567efab"

/-- C9 witness: the dedup theorem applied to an empty directory. -/
theorem content_hash_dedup_w :
    (finish_convert_task c9Digest 8 (fun _ => none) 7).dir
      (generate_hash_name c9Digest 8 7) = some 7 :=
  (content_hash_dedup c9Digest 8 (fun _ => none) 7 rfl).2.2.2.2.2.2.1

end ConvertImagesModel
